import Mathlib

/-!
Verification of the trading-bot backtesting core (`src/trading-bot`).

The development shallowly embeds the Python sources:
  * `backtest.py` (`Backtester.run`, `Backtester._print_results`),
  * `strategy.py` (`TradingStrategy.analyze` and the two class-level
    definitions of `populate_indicators`, of which the second shadows the
    first under Python class-body semantics),
  * `data_fetcher.py` (`calculate_rsi`).

Machine floats are modelled by exact rationals; pandas `NaN` entries are
modelled by `Option` (`none` = NaN); Python exceptions are modelled by
`Except` with an explicit error type.
-/

set_option autoImplicit false

namespace TB

/-- Python exceptions that the embedded code can raise. -/
inductive PyErr where
  /-- `KeyError` raised by a missing DataFrame column lookup `df[col]`. -/
  | keyError (col : String)
  /-- `IndexError` raised by `.iloc` on an out-of-bounds position. -/
  | indexError
  deriving DecidableEq, Repr

/-! ## Backtest simulator (`backtest.py`)

`Backtester.run` iterates over the rows of a signal-annotated DataFrame.
Each row is read through the columns `datetime`, `close`, `buy_signal`,
`sell_signal`, so a row is embedded as a record of those fields. -/

/-- One row of the signal-annotated DataFrame as `Backtester.run` reads it:
`row['datetime']`, `row['close']`, `row['buy_signal']`, `row['sell_signal']`. -/
structure Row where
  datetime : Int
  close : ℚ
  buy_signal : Int
  sell_signal : Int
  deriving DecidableEq, Repr

/-- A trade record, as appended to `self.trades` in the sell branch of
`Backtester.run`. -/
structure Trade where
  entry_time : Int
  exit_time : Int
  entry_price : ℚ
  exit_price : ℚ
  profit_pct : ℚ
  profit_amount : ℚ
  deriving DecidableEq, Repr

/-- Constructor parameters of `Backtester.__init__` that stay constant over
a run. -/
structure BTConfig where
  initial_balance : ℚ
  trade_amount : ℚ
  fee_rate : ℚ
  deriving DecidableEq, Repr

/-- The mutable attributes of a `Backtester` instance.  Python creates
`self.entry_time` only on the first buy; it is initialised to `0` here and
is only ever read after a buy has set it (a sell requires
`position_size > 0`). -/
structure BTState where
  balance : ℚ
  position_size : ℚ
  entry_price : ℚ
  entry_time : Int
  trades : List Trade
  equity_curve : List ℚ
  deriving DecidableEq, Repr

/-- The attribute values set by `Backtester.__init__`. -/
def initState (cfg : BTConfig) : BTState :=
  { balance := cfg.initial_balance
    position_size := 0
    entry_price := 0
    entry_time := 0
    trades := []
    equity_curve := [] }

/-- One iteration of the `for index, row in df.iterrows()` loop of
`Backtester.run`: append the mark-to-market equity sample, then the buy
branch, else the sell branch. -/
def stepCandle (cfg : BTConfig) (st : BTState) (row : Row) : BTState :=
  let current_price := row.close
  let current_equity := st.balance + st.position_size * current_price
  let st1 := { st with equity_curve := st.equity_curve ++ [current_equity] }
  if row.buy_signal = 1 ∧ st1.position_size = 0 ∧ cfg.trade_amount ≤ st1.balance then
    let fee := cfg.trade_amount * cfg.fee_rate
    let invest_amount := cfg.trade_amount - fee
    { st1 with
        position_size := invest_amount / current_price
        balance := st1.balance - cfg.trade_amount
        entry_price := current_price
        entry_time := row.datetime }
  else if row.sell_signal = 1 ∧ 0 < st1.position_size then
    let gross_revenue := st1.position_size * current_price
    let fee := gross_revenue * cfg.fee_rate
    let net_revenue := gross_revenue - fee
    let profit_amount := net_revenue - cfg.trade_amount
    let profit_pct := (profit_amount / cfg.trade_amount) * 100
    { st1 with
        balance := st1.balance + net_revenue
        trades := st1.trades ++
          [{ entry_time := st1.entry_time
             exit_time := row.datetime
             entry_price := st1.entry_price
             exit_price := current_price
             profit_pct := profit_pct
             profit_amount := profit_amount }]
        position_size := 0 }
  else
    st1

/-- The candle loop of `Backtester.run` started from an arbitrary state. -/
def runFrom (cfg : BTConfig) (st : BTState) (df : List Row) : BTState :=
  df.foldl (stepCandle cfg) st

/-- `Backtester.run`.  The opening log line formats
`df['datetime'].iloc[0]` and `df['datetime'].iloc[-1]`, which raises
`IndexError` on an empty frame, so the empty case is an error.  After the
loop, a still-open position is force-liquidated: the net proceeds are
credited to `balance` and the last equity sample is overwritten with the
new balance; `position_size` is left untouched by this block. -/
def run (cfg : BTConfig) (df : List Row) : Except PyErr BTState :=
  match df with
  | [] => .error .indexError
  | r :: rest =>
    let st := runFrom cfg (initState cfg) (r :: rest)
    if 0 < st.position_size then
      let final_price := ((r :: rest).getLast (List.cons_ne_nil r rest)).close
      let gross_revenue := st.position_size * final_price
      let balance := st.balance + (gross_revenue - gross_revenue * cfg.fee_rate)
      .ok { st with
              balance := balance
              equity_curve := st.equity_curve.set (st.equity_curve.length - 1) balance }
    else
      .ok st

/-! ## Performance reporter (`Backtester._print_results`) -/

/-- Cumulative maximum of a series (`pd.Series.cummax`), starting from a
first running value. -/
def cummaxFrom (m : ℚ) : List ℚ → List ℚ
  | [] => [m]
  | y :: ys => m :: cummaxFrom (max m y) ys

/-- `pd.Series.cummax`: entry `t` is the maximum of the entries up to and
including `t`. -/
def cummax : List ℚ → List ℚ
  | [] => []
  | x :: xs => cummaxFrom x xs

/-- `drawdown = equity_s / roll_max - 1.0`, elementwise. -/
def drawdown (curve : List ℚ) : List ℚ :=
  List.zipWith (fun e m => e / m - 1) curve (cummax curve)

/-- `pd.Series.min` on an exact series: `none` on the empty series (pandas
would return NaN there). -/
def listMin : List ℚ → Option ℚ
  | [] => none
  | x :: xs => some (xs.foldl min x)

/-- `mdd = drawdown.min() * 100` from `_print_results`. -/
def mddOf (curve : List ℚ) : Option ℚ :=
  (listMin (drawdown curve)).map (fun m => m * 100)

/-- Outcome of `Backtester._print_results`: either the early-returned
"no trades executed" message or the summary statistics it logs. -/
inductive Report where
  | noTrades
  | stats (win_rate : ℚ) (total_return_pct : ℚ) (mdd : Option ℚ)
  deriving DecidableEq, Repr

/-- `Backtester._print_results`: early return when the trade log is empty,
otherwise win rate, total return and maximum drawdown. -/
def printResults (cfg : BTConfig) (st : BTState) : Report :=
  let total_trades := st.trades.length
  if total_trades = 0 then
    .noTrades
  else
    let winning_trades := st.trades.filter (fun t => 0 < t.profit_pct)
    let win_rate := ((winning_trades.length : ℚ) / (total_trades : ℚ)) * 100
    let total_return_pct := ((st.balance - cfg.initial_balance) / cfg.initial_balance) * 100
    .stats win_rate total_return_pct (mddOf st.equity_curve)

/-! ## RSI (`data_fetcher.calculate_rsi`, duplicated verbatim in
`previous/strategy1.py`)

A pandas `Series` of floats with possible NaN entries is a
`List (Option ℚ)`; a NaN-free series is a `List ℚ`. -/

/-- `close.diff()`: entry `t` is `close[t] - close[t-1]`, NaN at `t = 0`. -/
def diff : List ℚ → List (Option ℚ)
  | [] => []
  | x :: xs => none :: List.zipWith (fun a b => some (a - b)) xs (x :: xs)

/-- `gain = delta.where(delta > 0, 0)`: keep entries where the condition
holds, replace the rest with `0`.  A NaN entry fails the comparison and is
replaced by `0`. -/
def gainOf (delta : List (Option ℚ)) : List ℚ :=
  delta.map (fun d =>
    match d with
    | some q => if 0 < q then q else 0
    | none => 0)

/-- `loss = -delta.where(delta < 0, 0)`: keep the negative entries (NaN
fails the comparison and becomes `0`), then negate. -/
def lossOf (delta : List (Option ℚ)) : List ℚ :=
  (delta.map (fun d =>
    match d with
    | some q => if q < 0 then q else 0
    | none => 0)).map (fun q => -q)

/-- The recursive values of `Series.ewm(alpha=α, adjust=False).mean()`
after the seed: `y_t = (1-α)·y_{t-1} + α·x_t`. -/
def ewmRec (alpha y : ℚ) : List ℚ → List ℚ
  | [] => []
  | x :: xs =>
    let y2 := (1 - alpha) * y + alpha * x
    y2 :: ewmRec alpha y2 xs

/-- `min_periods` masking: position `t` (carrying `i = t + 1` observations)
is NaN until at least `minp` observations have been seen. -/
def maskFrom (minp i : ℕ) : List ℚ → List (Option ℚ)
  | [] => []
  | x :: xs => (if minp ≤ i then some x else none) :: maskFrom minp (i + 1) xs

/-- `Series.ewm(alpha=α, adjust=False, min_periods=minp).mean()` on a
NaN-free series (as produced by the `where(…, 0)` calls above): seed with
the first value, recurse, mask the warm-up. -/
def ewmMean (alpha : ℚ) (minp : ℕ) (l : List ℚ) : List (Option ℚ) :=
  match l with
  | [] => []
  | x :: xs => maskFrom minp 1 (x :: ewmRec alpha x xs)

/-- A float that is either finite or `float('inf')` (the only non-finite
value these functions produce). -/
inductive RVal where
  | num (q : ℚ)
  | inf
  deriving DecidableEq, Repr

/-- `avg_loss.replace(0, float('inf'))`, elementwise. -/
def replaceZeroWithInf : Option ℚ → Option RVal
  | none => none
  | some q => some (if q = 0 then RVal.inf else RVal.num q)

/-- Float division `avg_gain / denominator` where the denominator may be
`inf`: a finite numerator divided by `inf` is `0`.  The `denominator = 0`
case is unreachable after `replace(0, inf)`; IEEE would give `inf` for a
positive numerator, which is the value used here. -/
def divByRVal : Option ℚ → Option RVal → Option RVal
  | some _, some RVal.inf => some (RVal.num 0)
  | some g, some (RVal.num l) => some (if l = 0 then RVal.inf else RVal.num (g / l))
  | _, _ => none

/-- `rsi = 100 - (100 / (1 + rs))`, elementwise; `rs = inf` gives
`100 / (1 + inf) = 0`, hence `100`. -/
def rsiFromRs : Option RVal → Option ℚ
  | none => none
  | some RVal.inf => some (100 - 0)
  | some (RVal.num r) => some (100 - 100 / (1 + r))

/-- `data_fetcher.calculate_rsi` (identical in `previous/strategy1.py`). -/
def calculate_rsi (close : List ℚ) (period : ℕ) : List (Option ℚ) :=
  let delta := diff close
  let gain := gainOf delta
  let loss := lossOf delta
  let alpha : ℚ := 1 / (period : ℚ)
  let avg_gain := ewmMean alpha period gain
  let avg_loss := ewmMean alpha period loss
  let rs := List.zipWith divByRVal avg_gain (avg_loss.map replaceZeroWithInf)
  rs.map rsiFromRs

/-! ## DataFrames with dynamic columns (`strategy.py`)

`TradingStrategy` adds and reads DataFrame columns by name, so here a
DataFrame is an association list from column names to columns; a column is
a list of float-or-NaN cells. -/

/-- A DataFrame column: one cell per row, `none` = NaN. -/
abbrev Col := List (Option ℚ)

/-- A DataFrame: named columns in insertion order. -/
abbrev Frame := List (String × Col)

/-- `df[name]` as a lookup: `none` models the `KeyError` case. -/
def getCol : Frame → String → Option Col
  | [], _ => none
  | (n, c) :: rest, name => if n = name then some c else getCol rest name

/-- `df[name] = col`: overwrite an existing column, otherwise append a new
one. -/
def setCol : Frame → String → Col → Frame
  | [], name, v => [(name, v)]
  | (n, c) :: rest, name, v =>
    if n = name then (n, v) :: rest else (n, c) :: setCol rest name v

/-- `len(df)`: the common length of the columns (length of the first
column; `0` for a frame with no columns). -/
def nRows : Frame → ℕ
  | [] => 0
  | (_, c) :: _ => c.length

/-- Every column has the frame's row count. -/
def WFFrame (df : Frame) : Prop :=
  ∀ p ∈ df, (Prod.snd p).length = nRows df

/-- Elementwise subtraction of possibly-NaN cells. -/
def osub : Option ℚ → Option ℚ → Option ℚ
  | some a, some b => some (a - b)
  | _, _ => none

/-- Elementwise addition of possibly-NaN cells. -/
def oadd : Option ℚ → Option ℚ → Option ℚ
  | some a, some b => some (a + b)
  | _, _ => none

/-- Elementwise division of possibly-NaN cells.  Division is the total
rational one (`q / 0 = 0`); see the remark on `eom` below. -/
def odiv : Option ℚ → Option ℚ → Option ℚ
  | some a, some b => some (a / b)
  | _, _ => none

/-- `series.shift(1)`: NaN first, drop the last entry. -/
def shift1 (l : Col) : Col :=
  match l with
  | [] => []
  | _ :: _ => none :: l.dropLast

/-- Rolling mean with window `w` and `min_periods = w`: position `t`
averages the window of the last `w` positions if it holds `w` non-NaN
values, else NaN. -/
def rollingMean (w : ℕ) (l : Col) : Col :=
  (List.range l.length).map (fun t =>
    let window := (l.take (t + 1)).drop (t + 1 - w)
    let vals := window.filterMap id
    if vals.length = w then some (vals.foldl (· + ·) 0 / (w : ℚ)) else none)

/-- Modelled from the spec: `ta.eom` is pandas_ta third-party code absent
from `src/`.  Per the spec (sections 2 and 4.1), the indicator engine
derives EMV from high, low and volume, and any value computed from fewer
than `period` valid samples is undefined.  The documented Ease-of-Movement
formula is used: `distance = 0.5*(high - high.shift(1) + low - low.shift(1))`,
`box = (volume / 100000000) / (high - low)`, `emv = distance / box`
averaged over a rolling window of `length` samples with a full-window
requirement, so the leading warm-up entries are undefined.  Division is
total rational division; rows with `high = low` or `volume = 0` (where
IEEE produces infinities) are not relied upon by any theorem below, only
the undefined-entry structure is. -/
def eom (high low volume : Col) (length : ℕ) : Col :=
  let high_low_range := List.zipWith osub high low
  let distance :=
    (List.zipWith oadd (List.zipWith osub high (shift1 high))
      (List.zipWith osub low (shift1 low))).map (fun d => d.map (fun q => q / 2))
  let box := List.zipWith odiv (volume.map (fun v => v.map (fun q => q / 100000000)))
    high_low_range
  rollingMean length (List.zipWith odiv distance box)

/-- The second class-level definition of
`TradingStrategy.populate_indicators` (lines 100-105 of `strategy.py`).
Under Python class-body semantics it is the binding that
`TradingStrategy.analyze` actually calls: it only adds the `emv` column
(`df['emv'] = ta.eom(df['high'], df['low'], df['volume'], length=14)`) and
performs no `dropna`. -/
def populate_indicators_v2 (df : Frame) : Except PyErr Frame :=
  match getCol df "high" with
  | none => .error (.keyError "high")
  | some high =>
    match getCol df "low" with
    | none => .error (.keyError "low")
    | some low =>
      match getCol df "volume" with
      | none => .error (.keyError "volume")
      | some volume => .ok (setCol df "emv" (eom high low volume 14))

/-- `series_a > series_b` elementwise; comparisons against NaN are false. -/
def ogt : Option ℚ → Option ℚ → Bool
  | some a, some b => decide (b < a)
  | _, _ => false

/-- `series_a < series_b` elementwise; comparisons against NaN are false. -/
def olt : Option ℚ → Option ℚ → Bool
  | some a, some b => decide (a < b)
  | _, _ => false

/-- `TradingStrategy.populate_entry_signals`: initialise `buy_signal` to
`0`, then set it to `1` on the rows satisfying
`ema_short > ema_long and adx > 25 and rsi < 40`.  The condition reads the
columns `ema_short`, `ema_long`, `adx`, `rsi` in that order; a missing one
raises `KeyError`. -/
def populate_entry_signals (df : Frame) : Except PyErr Frame :=
  let df1 := setCol df "buy_signal" (List.replicate (nRows df) (some 0))
  match getCol df1 "ema_short" with
  | none => .error (.keyError "ema_short")
  | some ema_short =>
    match getCol df1 "ema_long" with
    | none => .error (.keyError "ema_long")
    | some ema_long =>
      match getCol df1 "adx" with
      | none => .error (.keyError "adx")
      | some adx =>
        match getCol df1 "rsi" with
        | none => .error (.keyError "rsi")
        | some rsi =>
          let buy_condition :=
            List.zipWith (fun a b => a && b)
              (List.zipWith (fun a b => a && b)
                (List.zipWith ogt ema_short ema_long)
                (adx.map (fun v => ogt v (some 25))))
              (rsi.map (fun v => olt v (some 40)))
          .ok (setCol df1 "buy_signal"
            (buy_condition.map (fun b => some (if b then 1 else 0))))

/-- `TradingStrategy.populate_exit_signals`: initialise `sell_signal` to
`0`, then set it to `1` on the rows satisfying
`rsi > 70 or ema_short < ema_long`.  The condition reads `rsi`,
`ema_short`, `ema_long` in that order. -/
def populate_exit_signals (df : Frame) : Except PyErr Frame :=
  let df1 := setCol df "sell_signal" (List.replicate (nRows df) (some 0))
  match getCol df1 "rsi" with
  | none => .error (.keyError "rsi")
  | some rsi =>
    match getCol df1 "ema_short" with
    | none => .error (.keyError "ema_short")
    | some ema_short =>
      match getCol df1 "ema_long" with
      | none => .error (.keyError "ema_long")
      | some ema_long =>
        let sell_condition :=
          List.zipWith (fun a b => a || b)
            (rsi.map (fun v => ogt v (some 70)))
            (List.zipWith olt ema_short ema_long)
        .ok (setCol df1 "sell_signal"
          (sell_condition.map (fun b => some (if b then 1 else 0))))

/-- `TradingStrategy.analyze`: chain the three populate functions.  The
`populate_indicators` binding it calls is the second class-level
definition (`populate_indicators_v2`), since in a Python class body a
later method definition of the same name replaces the earlier one. -/
def analyze (df : Frame) : Except PyErr Frame :=
  match populate_indicators_v2 df with
  | .error e => .error e
  | .ok df1 =>
    match populate_entry_signals df1 with
    | .error e => .error e
    | .ok df2 => populate_exit_signals df2

/-! ## Spec-side definitions

Definitions written after the words of the spec (not the code), used to
state refinement-style claims against the code-side definitions above. -/

/-- Default row used by positional lookups with a default
(`List.getD`); never selected under the in-bounds hypotheses below. -/
def defaultRow : Row := { datetime := 0, close := 0, buy_signal := 0, sell_signal := 0 }

/-- The equity samples as the spec describes them: the sample for candle
`i` is `cash + position_size * close_i` computed in the state carried into
candle `i`, i.e. before candle `i`'s signals are evaluated. -/
def samplesFrom (cfg : BTConfig) (st : BTState) (df : List Row) : List ℚ :=
  (List.range df.length).map (fun i =>
    (runFrom cfg st (df.take i)).balance +
      (runFrom cfg st (df.take i)).position_size * (df.getD i defaultRow).close)

/-- The spec-side equity curve of a whole backtest: one pre-signal
mark-to-market sample per input candle, starting from the initial
state. -/
def markToMarketSamples (cfg : BTConfig) (df : List Row) : List ℚ :=
  samplesFrom cfg (initState cfg) df

/-- The spec-side running maximum: the cumulative maximum of the curve up
to and including position `t`. -/
def runningMaxSpec (curve : List ℚ) (t : ℕ) : ℚ :=
  match curve.take (t + 1) with
  | [] => 0
  | x :: xs => xs.foldl max x

/-- The tail of the cumulative maximum, carrying the running maximum `m`
of the strict prefix. -/
def cummaxAux (m : ℚ) : List ℚ → List ℚ
  | [] => []
  | y :: ys => max m y :: cummaxAux (max m y) ys

/-- The tail of the drawdown series, carrying the running maximum `m` of
the strict prefix: the entry for `y` is `y / max m y - 1`. -/
def ddFrom (m : ℚ) : List ℚ → List ℚ
  | [] => []
  | y :: ys => (y / max m y - 1) :: ddFrom (max m y) ys

/-! ## Concrete fixtures used by witnesses and counterexamples -/

/-- The configuration of the backtest entry point: 100 USDT per trade and
the 0.1 % Binance spot fee (with a 10000 USDT initial balance). -/
def cfgX : BTConfig := { initial_balance := 10000, trade_amount := 100, fee_rate := 1 / 1000 }

/-- A single candle on which a buy signal fires at price 100. -/
def rowBuy100 : Row := { datetime := 10, close := 100, buy_signal := 1, sell_signal := 0 }

/-- A candle on which a sell signal fires at price 110. -/
def rowSell110 : Row := { datetime := 20, close := 110, buy_signal := 0, sell_signal := 1 }

/-- A one-candle frame whose only candle carries a buy signal, so the
position opened on it is still held when the data ends. -/
def dfBuyOnly : List Row := [rowBuy100]

/-- A one-row OHLCV candle frame, with exactly the columns the data
fetcher produces. -/
def w1df : Frame :=
  [("timestamp", [some 0]), ("open", [some 1]), ("high", [some 2]),
   ("low", [some 1]), ("close", [some 1]), ("volume", [some 3])]

/-- A two-row OHLCV candle frame used to exercise the indicator stage. -/
def df10 : Frame :=
  [("timestamp", [some 0, some 1]), ("open", [some 1, some 1]),
   ("high", [some 10, some 11]), ("low", [some 5, some 6]),
   ("close", [some 7, some 8]), ("volume", [some 100, some 200])]

/-! ## Helper lemmas: one candle of the backtest loop -/

lemma stepCandle_of_buy (cfg : BTConfig) (st : BTState) (row : Row)
    (h : row.buy_signal = 1 ∧ st.position_size = 0 ∧ cfg.trade_amount ≤ st.balance) :
    stepCandle cfg st row =
      { balance := st.balance - cfg.trade_amount
        position_size := (cfg.trade_amount - cfg.trade_amount * cfg.fee_rate) / row.close
        entry_price := row.close
        entry_time := row.datetime
        trades := st.trades
        equity_curve := st.equity_curve ++ [st.balance + st.position_size * row.close] } := by
  simp only [stepCandle]
  rw [if_pos h]

lemma stepCandle_of_sell (cfg : BTConfig) (st : BTState) (row : Row)
    (hsell : row.sell_signal = 1) (hpos : 0 < st.position_size) :
    stepCandle cfg st row =
      { balance := st.balance +
          (st.position_size * row.close - st.position_size * row.close * cfg.fee_rate)
        position_size := 0
        entry_price := st.entry_price
        entry_time := st.entry_time
        trades := st.trades ++
          [{ entry_time := st.entry_time
             exit_time := row.datetime
             entry_price := st.entry_price
             exit_price := row.close
             profit_pct := ((st.position_size * row.close -
                 st.position_size * row.close * cfg.fee_rate) - cfg.trade_amount)
               / cfg.trade_amount * 100
             profit_amount := (st.position_size * row.close -
                 st.position_size * row.close * cfg.fee_rate) - cfg.trade_amount }]
        equity_curve := st.equity_curve ++ [st.balance + st.position_size * row.close] } := by
  simp only [stepCandle]
  rw [if_neg (fun hc => absurd hc.2.1 (ne_of_gt hpos)), if_pos ⟨hsell, hpos⟩]

lemma stepCandle_of_hold (cfg : BTConfig) (st : BTState) (row : Row)
    (hb : ¬(row.buy_signal = 1 ∧ st.position_size = 0 ∧ cfg.trade_amount ≤ st.balance))
    (hs : ¬(row.sell_signal = 1 ∧ 0 < st.position_size)) :
    stepCandle cfg st row =
      { st with equity_curve := st.equity_curve ++ [st.balance + st.position_size * row.close] } := by
  simp only [stepCandle]
  rw [if_neg hb, if_neg hs]

/-! ## C5: FLAT to LONG entry -/

/-- Claim C5: on any candle, a FLAT-to-LONG entry occurs if and only if
`buy_signal == 1`, the account is flat, and cash is at least
`trade_amount`; on entry the position size becomes
`trade_amount * (1 - fee_rate) / close` and cash decreases by the full
`trade_amount`; a buy signal with insufficient cash changes nothing and
the account stays FLAT. -/
theorem flat_to_long_entry_iff (cfg : BTConfig) (st : BTState) (row : Row)
    (hclose : 0 < row.close) (hamt : 0 < cfg.trade_amount) (hfee : cfg.fee_rate < 1) :
    ((st.position_size = 0 ∧ (stepCandle cfg st row).position_size ≠ 0) ↔
      (row.buy_signal = 1 ∧ st.position_size = 0 ∧ cfg.trade_amount ≤ st.balance)) ∧
    ((row.buy_signal = 1 ∧ st.position_size = 0 ∧ cfg.trade_amount ≤ st.balance) →
      (stepCandle cfg st row).position_size = cfg.trade_amount * (1 - cfg.fee_rate) / row.close ∧
      (stepCandle cfg st row).balance = st.balance - cfg.trade_amount) ∧
    ((row.buy_signal = 1 ∧ st.position_size = 0 ∧ st.balance < cfg.trade_amount) →
      (stepCandle cfg st row).position_size = 0 ∧
      (stepCandle cfg st row).balance = st.balance ∧
      (stepCandle cfg st row).trades = st.trades ∧
      (stepCandle cfg st row).entry_price = st.entry_price ∧
      (stepCandle cfg st row).entry_time = st.entry_time) := by
  have hpos : 0 < cfg.trade_amount * (1 - cfg.fee_rate) / row.close :=
    div_pos (mul_pos hamt (by linarith)) hclose
  have hform : cfg.trade_amount - cfg.trade_amount * cfg.fee_rate
      = cfg.trade_amount * (1 - cfg.fee_rate) := by ring
  refine ⟨⟨fun h => ?_, fun h => ?_⟩, fun h => ?_, fun h => ?_⟩
  · by_cases hc : row.buy_signal = 1 ∧ st.position_size = 0 ∧ cfg.trade_amount ≤ st.balance
    · exact hc
    · exfalso
      apply h.2
      rw [stepCandle_of_hold cfg st row hc (fun hs => absurd h.1 (ne_of_gt hs.2))]
      exact h.1
  · refine ⟨h.2.1, ?_⟩
    rw [stepCandle_of_buy cfg st row h]
    show (cfg.trade_amount - cfg.trade_amount * cfg.fee_rate) / row.close ≠ 0
    rw [hform]
    exact ne_of_gt hpos
  · rw [stepCandle_of_buy cfg st row h]
    refine ⟨?_, rfl⟩
    show (cfg.trade_amount - cfg.trade_amount * cfg.fee_rate) / row.close
      = cfg.trade_amount * (1 - cfg.fee_rate) / row.close
    rw [hform]
  · have hc : ¬(row.buy_signal = 1 ∧ st.position_size = 0 ∧ cfg.trade_amount ≤ st.balance) :=
      fun hc => absurd h.2.2 hc.2.2.not_lt
    rw [stepCandle_of_hold cfg st row hc (fun hs => absurd h.2.1 (ne_of_gt hs.2))]
    exact ⟨h.2.1, rfl, rfl, rfl, rfl⟩

/-- Witness for C5: a concrete entry at price 100 with `trade_amount = 100`
and `fee_rate = 0.1 %` yields a position of `0.999` coins, and the same
signal with a 50 USDT balance leaves the account untouched. -/
theorem flat_to_long_entry_iff_witness :
    (stepCandle cfgX (initState cfgX) rowBuy100).position_size
      = cfgX.trade_amount * (1 - cfgX.fee_rate) / rowBuy100.close ∧
    (stepCandle cfgX { initState cfgX with balance := 50 } rowBuy100).position_size = 0 ∧
    (stepCandle cfgX { initState cfgX with balance := 50 } rowBuy100).balance = 50 := by
  refine ⟨((flat_to_long_entry_iff cfgX (initState cfgX) rowBuy100 (by norm_num [rowBuy100])
    (by norm_num [cfgX]) (by norm_num [cfgX])).2.1
    (by norm_num [rowBuy100, initState, cfgX])).1, ?_, ?_⟩
  · exact ((flat_to_long_entry_iff cfgX { initState cfgX with balance := 50 } rowBuy100
      (by norm_num [rowBuy100]) (by norm_num [cfgX]) (by norm_num [cfgX])).2.2
      (by norm_num [rowBuy100, initState, cfgX])).1
  · exact ((flat_to_long_entry_iff cfgX { initState cfgX with balance := 50 } rowBuy100
      (by norm_num [rowBuy100]) (by norm_num [cfgX]) (by norm_num [cfgX])).2.2
      (by norm_num [rowBuy100, initState, cfgX])).2.1

/-! ## C6: LONG to FLAT exit -/

/-- Claim C6: on a LONG-to-FLAT exit (`sell_signal == 1` with an open
position), cash is credited with `position_size * close * (1 - fee_rate)`,
`profit_amount` is the net proceeds minus `trade_amount`, `profit_pct` is
`profit_amount / trade_amount * 100`, exactly one trade record is appended
and the position is reset to zero. -/
theorem long_to_flat_exit (cfg : BTConfig) (st : BTState) (row : Row)
    (hsell : row.sell_signal = 1) (hpos : 0 < st.position_size) :
    (stepCandle cfg st row).balance
      = st.balance + st.position_size * row.close * (1 - cfg.fee_rate) ∧
    (stepCandle cfg st row).position_size = 0 ∧
    (stepCandle cfg st row).trades = st.trades ++
      [{ entry_time := st.entry_time
         exit_time := row.datetime
         entry_price := st.entry_price
         exit_price := row.close
         profit_pct := (st.position_size * row.close * (1 - cfg.fee_rate) - cfg.trade_amount)
           / cfg.trade_amount * 100
         profit_amount := st.position_size * row.close * (1 - cfg.fee_rate)
           - cfg.trade_amount }] := by
  have hform : st.position_size * row.close - st.position_size * row.close * cfg.fee_rate
      = st.position_size * row.close * (1 - cfg.fee_rate) := by ring
  rw [stepCandle_of_sell cfg st row hsell hpos]
  exact ⟨by rw [hform], rfl, by rw [hform]⟩

/-- Witness for C6, the scenario of the claim: entry at price 100, exit at
price 110, `trade_amount = 100`, `fee_rate = 0.001`, position `0.999`:
net proceeds `0.999 * 110 * 0.999 = 109.78011` and
`profit_pct = 9.78011 %`. -/
theorem long_to_flat_exit_witness :
    (stepCandle cfgX
      { balance := 9900, position_size := 999 / 1000, entry_price := 100, entry_time := 10
        trades := [], equity_curve := [10000] } rowSell110).balance
      = 9900 + (999 / 1000 : ℚ) * 110 * (1 - 1 / 1000) ∧
    (stepCandle cfgX
      { balance := 9900, position_size := 999 / 1000, entry_price := 100, entry_time := 10
        trades := [], equity_curve := [10000] } rowSell110).position_size = 0 ∧
    ((999 / 1000 : ℚ) * 110 * (1 - 1 / 1000) = 109780110 / 1000000) ∧
    ((999 / 1000 : ℚ) * 110 * (1 - 1 / 1000) - 100) / 100 * 100 = 978011 / 100000 := by
  have h := long_to_flat_exit cfgX
    { balance := 9900, position_size := 999 / 1000, entry_price := 100, entry_time := 10
      trades := [], equity_curve := [10000] } rowSell110 (by norm_num [rowSell110])
    (by norm_num)
  exact ⟨h.1, h.2.1, by norm_num, by norm_num⟩

/-! ## C9: performance reporter win rate and the no-trades path -/

/-- Claim C9: the performance report computes
`win_rate = count(profit_pct > 0) / total_trades * 100` when there is at
least one trade, and with an empty trade log it reports the no-trades
result and returns early, performing no division. -/
theorem print_results_win_rate (cfg : BTConfig) (st : BTState) :
    (st.trades = [] → printResults cfg st = Report.noTrades) ∧
    (st.trades ≠ [] → printResults cfg st =
      Report.stats
        (((st.trades.filter (fun t => 0 < t.profit_pct)).length : ℚ)
          / (st.trades.length : ℚ) * 100)
        (((st.balance - cfg.initial_balance) / cfg.initial_balance) * 100)
        (mddOf st.equity_curve)) := by
  constructor
  · intro h
    simp [printResults, h]
  · intro h
    rw [printResults]
    simp [List.length_eq_zero, h]

/-- Witness for C9: with no trades the reporter returns the no-trades
result; with one winning and one losing trade it reports a 50 % win
rate. -/
theorem print_results_win_rate_witness :
    printResults cfgX (initState cfgX) = Report.noTrades ∧
    printResults cfgX
      { initState cfgX with trades :=
          [{ entry_time := 0, exit_time := 1, entry_price := 1, exit_price := 2
             profit_pct := 5, profit_amount := 5 },
           { entry_time := 2, exit_time := 3, entry_price := 2, exit_price := 1
             profit_pct := -5, profit_amount := -5 }] }
      = Report.stats 50 0 (mddOf []) := by
  constructor
  · exact (print_results_win_rate cfgX (initState cfgX)).1 rfl
  · refine ((print_results_win_rate cfgX _).2 (by simp)).trans ?_
    norm_num [initState, cfgX, List.filter]

/-! ## C3: empty candle sequence -/

/-- Counterexample to C3 as stated: on an empty candle sequence
`Backtester.run` does crash — the start-of-run log line formats
`df['datetime'].iloc[0]`, which raises `IndexError` on an empty frame, so
the run never reaches the loop or the report. -/
theorem run_empty_raises_indexerror :
    run cfgX [] = Except.error PyErr.indexError := rfl

/-- The candle loop leaves balance, position and trade log untouched when
no buy signal ever fires from a flat start: the buy guard needs
`buy_signal == 1` and the sell guard needs an open position. -/
lemma runFrom_no_buy (cfg : BTConfig) (df : List Row) :
    ∀ st : BTState, st.position_size = 0 → (∀ r ∈ df, r.buy_signal ≠ 1) →
      (runFrom cfg st df).balance = st.balance ∧
      (runFrom cfg st df).position_size = 0 ∧
      (runFrom cfg st df).trades = st.trades := by
  induction df with
  | nil => exact fun st h0 _ => ⟨rfl, h0, rfl⟩
  | cons r rest ih =>
    intro st h0 hb
    have hcons : runFrom cfg st (r :: rest) = runFrom cfg (stepCandle cfg st r) rest := rfl
    have hstep := stepCandle_of_hold cfg st r
      (fun hc => hb r (List.mem_cons_self r rest) hc.1)
      (fun hs => absurd h0 (ne_of_gt hs.2))
    rw [hcons, hstep]
    exact ih _ h0 (fun x hx => hb x (List.mem_cons_of_mem r hx))

/-- Amended C3: `Backtester.run` raises `IndexError` on an empty candle
sequence (see the counterexample); on a NON-empty sequence on which no buy
signal fires, it completes without trading: the trade log stays empty, the
balance stays at `initial_balance`, and the reporter yields the
"no trades executed" result. -/
theorem run_no_signals_reports_no_trades (cfg : BTConfig) (df : List Row) (hne : df ≠ [])
    (hb : ∀ r ∈ df, r.buy_signal ≠ 1) :
    ∃ st, run cfg df = .ok st ∧ st.trades = [] ∧ st.balance = cfg.initial_balance ∧
      printResults cfg st = Report.noTrades := by
  match df, hne with
  | r :: rest, _ =>
    obtain ⟨hbal, hpos, htr⟩ := runFrom_no_buy cfg (r :: rest) (initState cfg) rfl hb
    have htr2 : (runFrom cfg (initState cfg) (r :: rest)).trades = [] := htr
    refine ⟨runFrom cfg (initState cfg) (r :: rest), ?_, htr2, hbal, ?_⟩
    · simp only [run]
      rw [if_neg (by rw [hpos]; exact lt_irrefl 0)]
    · simp [printResults, htr2]

/-- Witness for the amended C3 at a concrete one-candle frame with no
signals. -/
theorem run_no_signals_reports_no_trades_witness :
    ∃ st, run cfgX [{ datetime := 0, close := 50, buy_signal := 0, sell_signal := 0 }] = .ok st ∧
      st.trades = [] ∧ st.balance = cfgX.initial_balance ∧
      printResults cfgX st = Report.noTrades := by
  exact run_no_signals_reports_no_trades cfgX _ (List.cons_ne_nil _ _)
    (by intro r hr; rw [List.mem_singleton] at hr; rw [hr]; decide)

/-! ## C4: end-of-data forced liquidation -/

/-- Counterexample to C4 as stated: after a run that ends with an open
position, the forced-liquidation block credits the balance but never
resets `self.position_size`, so the final account state is NOT FLAT: on a
one-candle frame whose candle carries a buy signal, `run` ends with
`position_size = 0.999 ≠ 0`. -/
theorem run_position_size_not_reset :
    (run cfgX dfBuyOnly).map BTState.position_size = Except.ok ((999 : ℚ) / 1000) ∧
    ((999 : ℚ) / 1000) ≠ 0 := by
  constructor
  · norm_num [run, runFrom, stepCandle, initState, cfgX, dfBuyOnly, rowBuy100, Except.map]
  · norm_num

/-- Amended C4: at the end of `Backtester.run` on a non-empty sequence,
a still-open position is liquidated ECONOMICALLY at the final close with
the normal exit fee rule — the balance is credited with
`position_size * final_close * (1 - fee_rate)` and the last equity sample
is overwritten with the resulting balance — but the `position_size` field
itself is left at its pre-liquidation value (no trade record is appended
either), so the final state is flat in cash terms only, not field-wise. -/
theorem run_forced_liquidation (cfg : BTConfig) (df : List Row) (hne : df ≠ []) :
    ∃ st, run cfg df = .ok st ∧
      st.position_size = (runFrom cfg (initState cfg) df).position_size ∧
      st.trades = (runFrom cfg (initState cfg) df).trades ∧
      (0 < (runFrom cfg (initState cfg) df).position_size →
        st.balance = (runFrom cfg (initState cfg) df).balance +
          (runFrom cfg (initState cfg) df).position_size * (df.getLast hne).close
            * (1 - cfg.fee_rate) ∧
        st.equity_curve = (runFrom cfg (initState cfg) df).equity_curve.set
          ((runFrom cfg (initState cfg) df).equity_curve.length - 1) st.balance) ∧
      (¬ 0 < (runFrom cfg (initState cfg) df).position_size →
        st = runFrom cfg (initState cfg) df) := by
  match df, hne with
  | r :: rest, hne =>
    by_cases hp : 0 < (runFrom cfg (initState cfg) (r :: rest)).position_size
    · simp only [run]
      rw [if_pos hp]
      exact ⟨_, rfl, rfl, rfl, fun _ => ⟨by ring, rfl⟩, fun hc => absurd hp hc⟩
    · simp only [run]
      rw [if_neg hp]
      exact ⟨_, rfl, rfl, rfl, fun hc => absurd hc hp, fun _ => rfl⟩

/-- Witness for the amended C4 at the one-buy-candle frame. -/
theorem run_forced_liquidation_witness :
    ∃ st, run cfgX dfBuyOnly = .ok st ∧
      st.position_size = (runFrom cfgX (initState cfgX) dfBuyOnly).position_size := by
  obtain ⟨st, h1, h2, -⟩ :=
    run_forced_liquidation cfgX dfBuyOnly (List.cons_ne_nil rowBuy100 [])
  exact ⟨st, h1, h2⟩

/-! ## C7: equity-curve sampling -/

/-- Every branch of the candle loop appends exactly the pre-signal
mark-to-market sample `balance + position_size * close` to the equity
curve. -/
lemma step_equity (cfg : BTConfig) (st : BTState) (row : Row) :
    (stepCandle cfg st row).equity_curve
      = st.equity_curve ++ [st.balance + st.position_size * row.close] := by
  by_cases hb : row.buy_signal = 1 ∧ st.position_size = 0 ∧ cfg.trade_amount ≤ st.balance
  · rw [stepCandle_of_buy cfg st row hb]
  · by_cases hs : row.sell_signal = 1 ∧ 0 < st.position_size
    · rw [stepCandle_of_sell cfg st row hs.1 hs.2]
    · rw [stepCandle_of_hold cfg st row hb hs]

lemma runFrom_append (cfg : BTConfig) (st : BTState) (df : List Row) (r : Row) :
    runFrom cfg st (df ++ [r]) = stepCandle cfg (runFrom cfg st df) r := by
  simp [runFrom, List.foldl_append]

lemma samplesFrom_length (cfg : BTConfig) (st : BTState) (df : List Row) :
    (samplesFrom cfg st df).length = df.length := by
  simp [samplesFrom]

lemma samplesFrom_append (cfg : BTConfig) (st : BTState) (df : List Row) (r : Row) :
    samplesFrom cfg st (df ++ [r]) = samplesFrom cfg st df ++
      [(runFrom cfg st df).balance + (runFrom cfg st df).position_size * r.close] := by
  unfold samplesFrom
  rw [List.length_append, List.length_singleton, List.range_succ, List.map_append]
  congr 1
  · apply List.map_congr_left
    intro i hi
    have hi2 : i < df.length := List.mem_range.mp hi
    rw [List.take_append_of_le_length (le_of_lt hi2), List.getD_append _ _ _ _ hi2]
  · rw [List.map_singleton, List.take_append_of_le_length (le_refl df.length),
      List.take_length, List.getD_append_right _ _ _ _ (le_refl df.length)]
    simp

/-- The equity curve built by the candle loop is exactly the list of
pre-signal mark-to-market samples. -/
lemma runFrom_equity (cfg : BTConfig) (df : List Row) :
    ∀ st : BTState, (runFrom cfg st df).equity_curve
      = st.equity_curve ++ samplesFrom cfg st df := by
  induction df using List.reverseRecOn with
  | nil => intro st; simp [runFrom, samplesFrom]
  | append_singleton df r ih =>
    intro st
    rw [runFrom_append, step_equity, ih, samplesFrom_append, List.append_assoc]

/-- Counterexample to C7 as stated: on the one-buy-candle frame, the
pre-signal sample of the only candle is `10000`, but the final equity
curve returned by `run` is `[9999.8001]` — the forced liquidation
overwrote the only (hence last) sample with the post-liquidation balance,
so that sample DOES reflect a trade executed on its own candle. -/
theorem run_equity_last_sample_overwritten :
    (run cfgX dfBuyOnly).map BTState.equity_curve = Except.ok [(99998001 : ℚ) / 10000] ∧
    markToMarketSamples cfgX dfBuyOnly = [10000] ∧
    ((99998001 : ℚ) / 10000) ≠ 10000 := by
  refine ⟨?_, ?_, by norm_num⟩
  · norm_num [run, runFrom, stepCandle, initState, cfgX, dfBuyOnly, rowBuy100,
      Except.map, List.set]
  · norm_num [markToMarketSamples, samplesFrom, runFrom, initState, cfgX, dfBuyOnly,
      rowBuy100, List.range_succ]

/-- Amended C7: `run` appends exactly one equity sample per processed
candle, each computed pre-signals as `cash + position_size * close` (so
the curve has the input's length), and the final curve equals that sample
list EXCEPT that, when a position is still open after the loop, the last
sample is overwritten with the post-liquidation cash balance. -/
theorem run_equity_mark_to_market (cfg : BTConfig) (df : List Row) (hne : df ≠ []) :
    ∃ st, run cfg df = .ok st ∧
      st.equity_curve.length = df.length ∧
      (¬ 0 < (runFrom cfg (initState cfg) df).position_size →
        st.equity_curve = markToMarketSamples cfg df) ∧
      (0 < (runFrom cfg (initState cfg) df).position_size →
        st.equity_curve = (markToMarketSamples cfg df).set (df.length - 1) st.balance) := by
  match df, hne with
  | r :: rest, _ =>
    have hmark : (runFrom cfg (initState cfg) (r :: rest)).equity_curve
        = markToMarketSamples cfg (r :: rest) := by
      rw [runFrom_equity]
      simp [initState, markToMarketSamples]
    have hmlen : (markToMarketSamples cfg (r :: rest)).length = (r :: rest).length :=
      samplesFrom_length cfg (initState cfg) (r :: rest)
    by_cases hp : 0 < (runFrom cfg (initState cfg) (r :: rest)).position_size
    · simp only [run]
      rw [if_pos hp]
      refine ⟨_, rfl, ?_, fun hc => absurd hp hc, fun _ => ?_⟩
      · show ((runFrom cfg (initState cfg) (r :: rest)).equity_curve.set _ _).length
          = (r :: rest).length
        rw [List.length_set, hmark, hmlen]
      · show (runFrom cfg (initState cfg) (r :: rest)).equity_curve.set
            ((runFrom cfg (initState cfg) (r :: rest)).equity_curve.length - 1) _
          = (markToMarketSamples cfg (r :: rest)).set ((r :: rest).length - 1) _
        rw [hmark, hmlen]
    · simp only [run]
      rw [if_neg hp]
      exact ⟨_, rfl, by rw [hmark, hmlen], fun _ => hmark, fun hc => absurd hc hp⟩

/-- Witness for the amended C7 at the one-buy-candle frame. -/
theorem run_equity_mark_to_market_witness :
    ∃ st, run cfgX dfBuyOnly = .ok st ∧ st.equity_curve.length = dfBuyOnly.length := by
  obtain ⟨st, h1, h2, -⟩ :=
    run_equity_mark_to_market cfgX dfBuyOnly (List.cons_ne_nil rowBuy100 [])
  exact ⟨st, h1, h2⟩

/-! ## C8: maximum drawdown -/

lemma cummaxFrom_eq_aux (l : List ℚ) : ∀ m : ℚ, cummaxFrom m l = m :: cummaxAux m l := by
  induction l with
  | nil => intro m; rfl
  | cons y ys ih => intro m; rw [cummaxFrom, cummaxAux, ih]

lemma zipWith_cummaxAux (l : List ℚ) :
    ∀ m : ℚ, List.zipWith (fun e mx => e / mx - 1) l (cummaxAux m l) = ddFrom m l := by
  induction l with
  | nil => intro m; rfl
  | cons y ys ih => intro m; rw [cummaxAux, ddFrom, List.zipWith_cons_cons, ih]

lemma drawdown_cons (x : ℚ) (xs : List ℚ) :
    drawdown (x :: xs) = (x / x - 1) :: ddFrom x xs := by
  show List.zipWith _ (x :: xs) (cummaxFrom x xs) = _
  rw [cummaxFrom_eq_aux, List.zipWith_cons_cons, zipWith_cummaxAux]

lemma ddFrom_length (l : List ℚ) : ∀ m : ℚ, (ddFrom m l).length = l.length := by
  induction l with
  | nil => intro m; rfl
  | cons y ys ih => intro m; rw [ddFrom, List.length_cons, List.length_cons, ih]

lemma ddFrom_nonpos (l : List ℚ) :
    ∀ m : ℚ, 0 < m → (∀ x ∈ l, 0 < x) → ∀ d ∈ ddFrom m l, d ≤ 0 := by
  induction l with
  | nil => intro m _ _ d hd; simp [ddFrom] at hd
  | cons y ys ih =>
    intro m hm hl d hd
    have hmax : 0 < max m y := lt_max_of_lt_left hm
    rw [ddFrom] at hd
    rcases List.mem_cons.mp hd with h | h
    · have hdiv : y / max m y ≤ 1 := div_le_one_of_le₀ (le_max_right m y) (le_of_lt hmax)
      rw [h]
      linarith
    · exact ih (max m y) hmax (fun x hx => hl x (List.mem_cons_of_mem y hx)) d h

lemma ddFrom_all_zero_iff (l : List ℚ) :
    ∀ m : ℚ, 0 < m → (∀ x ∈ l, 0 < x) →
      ((∀ d ∈ ddFrom m l, d = 0) ↔ List.Chain (· ≤ ·) m l) := by
  induction l with
  | nil =>
    intro m _ _
    constructor
    · intro _; exact List.Chain.nil
    · intro _ d hd; simp [ddFrom] at hd
  | cons y ys ih =>
    intro m hm hl
    have hy : 0 < y := hl y (List.mem_cons_self y ys)
    have hmax : 0 < max m y := lt_max_of_lt_left hm
    have htail : ∀ x ∈ ys, 0 < x := fun x hx => hl x (List.mem_cons_of_mem y hx)
    rw [List.chain_cons]
    constructor
    · intro h
      have hhead : y / max m y - 1 = 0 := h _ (by rw [ddFrom]; exact List.mem_cons_self _ _)
      have h1 : y / max m y = 1 := by linarith
      have hmy : m ≤ y := by
        field_simp [hmax.ne'] at h1
        exact h1
      have h2 : y = max m y := (max_eq_right hmy).symm
      exact ⟨hmy, (ih y hy htail).mp (by
        intro d hd
        apply h
        rw [ddFrom, ← h2]
        exact List.mem_cons_of_mem _ hd)⟩
    · rintro ⟨hmy, hchain⟩
      have hmax_eq : max m y = y := max_eq_right hmy
      intro d hd
      rw [ddFrom, hmax_eq] at hd
      rcases List.mem_cons.mp hd with h1 | h1
      · rw [h1, div_self hy.ne']
        ring
      · exact (ih y hy htail).mpr hchain d h1

lemma foldl_min_le_init (l : List ℚ) : ∀ a : ℚ, l.foldl min a ≤ a := by
  induction l with
  | nil => intro a; exact le_refl a
  | cons x xs ih => intro a; exact le_trans (ih (min a x)) (min_le_left a x)

lemma foldl_min_le_mem (l : List ℚ) : ∀ a y : ℚ, y ∈ l → l.foldl min a ≤ y := by
  induction l with
  | nil => intro a y hy; simp at hy
  | cons x xs ih =>
    intro a y hy
    rcases List.mem_cons.mp hy with h | h
    · rw [h]
      exact le_trans (foldl_min_le_init xs (min a x)) (min_le_right a x)
    · exact ih (min a x) y h

lemma foldl_min_mem_or (l : List ℚ) : ∀ a : ℚ, l.foldl min a = a ∨ l.foldl min a ∈ l := by
  induction l with
  | nil => intro a; exact Or.inl rfl
  | cons x xs ih =>
    intro a
    rcases ih (min a x) with h | h
    · rcases min_choice a x with h2 | h2
      · exact Or.inl (by rw [List.foldl_cons, h, h2])
      · exact Or.inr (by rw [List.foldl_cons, h, h2]; exact List.mem_cons_self x xs)
    · exact Or.inr (List.mem_cons_of_mem x h)

lemma ddFrom_getD (l : List ℚ) :
    ∀ (m : ℚ) (t : ℕ), t < l.length →
      (ddFrom m l).getD t 0 = l.getD t 0 / ((l.take (t + 1)).foldl max m) - 1 := by
  induction l with
  | nil => intro m t ht; simp at ht
  | cons y ys ih =>
    intro m t ht
    cases t with
    | zero =>
      rw [ddFrom]
      simp [List.getD_cons_zero]
    | succ t =>
      rw [ddFrom, List.getD_cons_succ, List.getD_cons_succ]
      rw [ih (max m y) t (by simpa using Nat.lt_of_succ_lt_succ ht)]
      rfl

lemma drawdown_getD (curve : List ℚ) (hne : curve ≠ []) :
    ∀ t : ℕ, t < curve.length →
      (drawdown curve).getD t 0 = curve.getD t 0 / runningMaxSpec curve t - 1 := by
  match curve, hne with
  | x :: xs, _ =>
    intro t ht
    cases t with
    | zero =>
      rw [drawdown_cons]
      simp [runningMaxSpec, List.getD_cons_zero]
    | succ t =>
      rw [drawdown_cons, List.getD_cons_succ, List.getD_cons_succ]
      rw [ddFrom_getD xs x t (by simpa using Nat.lt_of_succ_lt_succ ht)]
      rfl

/-- Claim C8: the reported max drawdown is
`min over t of (equity[t] / running_max(equity[0..t]) - 1) * 100` where
`running_max` is the cumulative maximum up to and including `t`; for every
(positive) equity curve it is at most `0`, and it equals `0` exactly when
the curve is non-decreasing. -/
theorem max_drawdown_spec (curve : List ℚ) (hne : curve ≠ []) (hpos : ∀ x ∈ curve, 0 < x) :
    ∃ m, mddOf curve = some m ∧ m ≤ 0 ∧ (m = 0 ↔ List.Chain' (· ≤ ·) curve) ∧
      (∀ t, t < curve.length → m ≤ (curve.getD t 0 / runningMaxSpec curve t - 1) * 100) ∧
      (∃ t, t < curve.length ∧ m = (curve.getD t 0 / runningMaxSpec curve t - 1) * 100) := by
  match curve, hne with
  | x :: xs, _ =>
    have hx : 0 < x := hpos x (List.mem_cons_self x xs)
    have htail : ∀ y ∈ xs, 0 < y := fun y hy => hpos y (List.mem_cons_of_mem x hy)
    have hd0 : x / x - 1 = 0 := by rw [div_self hx.ne']; ring
    have hmin : mddOf (x :: xs) = some ((ddFrom x xs).foldl min (x / x - 1) * 100) := by
      rw [mddOf, drawdown_cons]
      rfl
    have hm0_le_all : ∀ d ∈ drawdown (x :: xs), (ddFrom x xs).foldl min (x / x - 1) ≤ d := by
      intro d hd
      rw [drawdown_cons] at hd
      rcases List.mem_cons.mp hd with h | h
      · rw [h]
        exact foldl_min_le_init _ _
      · exact foldl_min_le_mem _ _ _ h
    have hm0_nonpos : (ddFrom x xs).foldl min (x / x - 1) ≤ 0 := by
      rcases foldl_min_mem_or (ddFrom x xs) (x / x - 1) with h | h
      · rw [h, hd0]
      · exact ddFrom_nonpos xs x hx htail _ h
    have hlen : (drawdown (x :: xs)).length = (x :: xs).length := by
      rw [drawdown_cons, List.length_cons, List.length_cons, ddFrom_length]
    refine ⟨(ddFrom x xs).foldl min (x / x - 1) * 100, hmin, by linarith, ?_, ?_, ?_⟩
    · constructor
      · intro h
        have hm00 : (ddFrom x xs).foldl min (x / x - 1) = 0 := by linarith
        show List.Chain (· ≤ ·) x xs
        refine (ddFrom_all_zero_iff xs x hx htail).mp ?_
        intro d hd
        have h1 := foldl_min_le_mem (ddFrom x xs) (x / x - 1) d hd
        have h2 := ddFrom_nonpos xs x hx htail d hd
        linarith
      · intro h
        have hch : List.Chain (· ≤ ·) x xs := h
        have hzero : ∀ d ∈ ddFrom x xs, d = 0 :=
          (ddFrom_all_zero_iff xs x hx htail).mpr hch
        have hm00 : (ddFrom x xs).foldl min (x / x - 1) = 0 := by
          rcases foldl_min_mem_or (ddFrom x xs) (x / x - 1) with h1 | h1
          · rw [h1, hd0]
          · exact hzero _ h1
        rw [hm00]
        ring
    · intro t ht
      have hdd := drawdown_getD (x :: xs) (List.cons_ne_nil x xs) t ht
      have hmem : (drawdown (x :: xs)).getD t 0 ∈ drawdown (x :: xs) := by
        rw [List.getD_eq_getElem _ _ (by rw [hlen]; exact ht)]
        exact List.getElem_mem _
      have hle := hm0_le_all _ hmem
      rw [hdd] at hle
      exact mul_le_mul_of_nonneg_right hle (by norm_num)
    · rcases foldl_min_mem_or (ddFrom x xs) (x / x - 1) with h1 | h1
      · refine ⟨0, Nat.succ_pos _, ?_⟩
        have h0 := drawdown_getD (x :: xs) (List.cons_ne_nil x xs) 0 (Nat.succ_pos _)
        rw [drawdown_cons, List.getD_cons_zero] at h0
        rw [h1, h0]
      · have hmem : (ddFrom x xs).foldl min (x / x - 1) ∈ drawdown (x :: xs) := by
          rw [drawdown_cons]
          exact List.mem_cons_of_mem _ h1
        obtain ⟨n, hn, hval⟩ := List.mem_iff_getElem.mp hmem
        have hn2 : n < (x :: xs).length := by rw [← hlen]; exact hn
        refine ⟨n, hn2, ?_⟩
        have hgd : (drawdown (x :: xs)).getD n 0 = (ddFrom x xs).foldl min (x / x - 1) := by
          rw [List.getD_eq_getElem _ _ hn]
          exact hval
        rw [← drawdown_getD (x :: xs) (List.cons_ne_nil x xs) n hn2, hgd]

/-- Witness for C8 on the concrete curve `[2, 1]` (a strict dip, so the
reported drawdown is defined and non-positive). -/
theorem max_drawdown_spec_witness :
    ∃ m, mddOf [(2 : ℚ), 1] = some m ∧ m ≤ 0 ∧
      (m = 0 ↔ List.Chain' (· ≤ ·) [(2 : ℚ), 1]) := by
  obtain ⟨m, h1, h2, h3, -⟩ := max_drawdown_spec [(2 : ℚ), 1] (List.cons_ne_nil 2 [1])
    (by
      intro y hy
      rcases List.mem_cons.mp hy with h | h
      · rw [h]; norm_num
      · rw [List.mem_singleton.mp h]; norm_num)
  exact ⟨m, h1, h2, h3⟩

/-! ## C1 and C10: the strategy pipeline -/

lemma getCol_setCol_ne (df : Frame) (n m : String) (v : Col) (h : n ≠ m) :
    getCol (setCol df n v) m = getCol df m := by
  induction df with
  | nil => simp [setCol, getCol, h]
  | cons p rest ih =>
    obtain ⟨k, c⟩ := p
    by_cases hk : k = n
    · subst hk
      simp [setCol, getCol, h]
    · by_cases hm : k = m
      · subst hm
        simp [setCol, getCol, hk]
      · simp [setCol, getCol, hk, hm, ih]

lemma setCol_not_mem (df : Frame) (n : String) (v : Col) (h : getCol df n = none) :
    setCol df n v = df ++ [(n, v)] := by
  induction df with
  | nil => rfl
  | cons p rest ih =>
    obtain ⟨k, c⟩ := p
    rw [getCol] at h
    by_cases hk : k = n
    · rw [if_pos hk] at h
      exact absurd h (by simp)
    · rw [if_neg hk] at h
      show (if k = n then (k, v) :: rest else (k, c) :: setCol rest n v) = _
      rw [if_neg hk, ih h]
      rfl

lemma getCol_append_self (df : Frame) (n : String) (v : Col) (h : getCol df n = none) :
    getCol (df ++ [(n, v)]) n = some v := by
  induction df with
  | nil =>
    show (if n = n then some v else none) = some v
    rw [if_pos rfl]
  | cons p rest ih =>
    obtain ⟨k, c⟩ := p
    rw [getCol] at h
    by_cases hk : k = n
    · rw [if_pos hk] at h
      exact absurd h (by simp)
    · rw [if_neg hk] at h
      show (if k = n then some c else getCol (rest ++ [(n, v)]) n) = some v
      rw [if_neg hk, ih h]

lemma getCol_mem (df : Frame) (n : String) (c : Col) (h : getCol df n = some c) :
    (n, c) ∈ df := by
  induction df with
  | nil => exact absurd h (by simp [getCol])
  | cons p rest ih =>
    obtain ⟨k, c2⟩ := p
    rw [getCol] at h
    by_cases hk : k = n
    · rw [if_pos hk] at h
      rw [Option.some_inj] at h
      subst hk
      subst h
      exact List.mem_cons_self _ _
    · rw [if_neg hk] at h
      exact List.mem_cons_of_mem _ (ih h)

lemma nRows_append (df : Frame) (p : String × Col) (h : df ≠ []) :
    nRows (df ++ [p]) = nRows df := by
  match df, h with
  | q :: rest, _ => rfl

@[simp] lemma osub_none_right (a : Option ℚ) : osub a none = none := by cases a <;> rfl

@[simp] lemma oadd_none_left (b : Option ℚ) : oadd none b = none := rfl

@[simp] lemma odiv_none_left (b : Option ℚ) : odiv none b = none := rfl

lemma shift1_length (l : Col) : (shift1 l).length = l.length := by
  cases l with
  | nil => rfl
  | cons x xs => simp [shift1]

lemma rollingMean_length (w : ℕ) (l : Col) : (rollingMean w l).length = l.length := by
  simp [rollingMean]

lemma eom_length (high low volume : Col) (w n : ℕ)
    (hh : high.length = n) (hl : low.length = n) (hv : volume.length = n) :
    (eom high low volume w).length = n := by
  simp [eom, rollingMean_length, List.length_zipWith, List.length_map, shift1_length,
    hh, hl, hv]

lemma rollingMean_head_none (w : ℕ) (hw : w ≠ 0) (rest : Col) :
    (rollingMean w (none :: rest)).head? = some none := by
  have h0 : 1 - w = 0 := Nat.sub_eq_zero_of_le (Nat.one_le_iff_ne_zero.mpr hw)
  rw [rollingMean]
  rw [List.length_cons, List.range_succ_eq_map, List.map_cons, List.head?_cons]
  rw [h0]
  show some (if (([] : List ℚ).length = w) then _ else none) = some none
  rw [if_neg (fun hc => hw (by simpa using hc.symm))]

lemma eom_cons_head (h0 l0 v0 : Option ℚ) (ht lt vt : Col) (w : ℕ) (hw : w ≠ 0) :
    (eom (h0 :: ht) (l0 :: lt) (v0 :: vt) w).head? = some none := by
  rw [eom]
  simp only [shift1, List.map_cons, List.zipWith_cons_cons, osub_none_right,
    oadd_none_left, Option.map_none', odiv_none_left]
  exact rollingMean_head_none w hw _

/-- Claim C1: because the second class-level `populate_indicators`
definition shadows the first, `TradingStrategy.analyze` never creates the
`ema_short`, `ema_long`, `rsi`, `adx` columns, so on every input frame
that does not already carry an `ema_short` column (as no candle frame
does) the pipeline raises a `KeyError` before returning — either for a
missing OHLCV input column inside the EMV computation, or (for a complete
candle frame) for the missing `ema_short` inside
`populate_entry_signals`. -/
theorem analyze_raises_keyerror (df : Frame) (h : getCol df "ema_short" = none) :
    ∃ c, analyze df = Except.error (PyErr.keyError c) := by
  rcases hh : getCol df "high" with _ | high
  · exact ⟨"high", by simp [analyze, populate_indicators_v2, hh]⟩
  rcases hl : getCol df "low" with _ | low
  · exact ⟨"low", by simp [analyze, populate_indicators_v2, hh, hl]⟩
  rcases hv : getCol df "volume" with _ | volume
  · exact ⟨"volume", by simp [analyze, populate_indicators_v2, hh, hl, hv]⟩
  refine ⟨"ema_short", ?_⟩
  have h1 : getCol (setCol df "emv" (eom high low volume 14)) "ema_short" = none := by
    rw [getCol_setCol_ne _ _ _ _ (by decide)]
    exact h
  have h2 : getCol (setCol (setCol df "emv" (eom high low volume 14)) "buy_signal"
      (List.replicate (nRows (setCol df "emv" (eom high low volume 14))) (some 0)))
      "ema_short" = none := by
    rw [getCol_setCol_ne _ _ _ _ (by decide)]
    exact h1
  simp [analyze, populate_indicators_v2, populate_entry_signals, hh, hl, hv, h2]

/-- Witness for C1 at a concrete one-row candle frame. -/
theorem analyze_raises_keyerror_witness :
    getCol w1df "ema_short" = none ∧
    ∃ c, analyze w1df = Except.error (PyErr.keyError c) :=
  ⟨rfl, analyze_raises_keyerror w1df rfl⟩

/-- Counterexample to C10 as stated: on a two-candle frame, the indicator
stage that `analyze` actually runs (the second `populate_indicators`)
returns a frame that still has BOTH rows, with the `emv` column undefined
(NaN) in each of them — no warm-up row is dropped before signal
generation, because the `dropna` lives only in the shadowed first
definition. -/
theorem indicator_stage_keeps_undefined_rows :
    populate_indicators_v2 df10 = Except.ok (df10 ++ [("emv", [none, none])]) ∧
    nRows (df10 ++ [("emv", [none, none])]) = 2 ∧
    getCol (df10 ++ [("emv", [none, none])]) "emv" = some [none, none] := by
  exact ⟨rfl, rfl, rfl⟩

/-- Amended C10: in the executed pipeline no row is dropped before signal
generation: the binding `populate_indicators` definition returns a frame
with the same row count as its input, whose `emv` column is as long as the
input and UNDEFINED on its first row (the warm-up), so rows with undefined
indicator values do reach the signal-generation stage (where the run then
fails with a `KeyError`, claim C1).  Row-dropping of undefined-indicator
rows exists only in the shadowed first `populate_indicators`
definition. -/
theorem indicator_stage_drops_no_rows (df : Frame) (high low volume : Col)
    (hh : getCol df "high" = some high) (hl : getCol df "low" = some low)
    (hv : getCol df "volume" = some volume)
    (hwf : WFFrame df) (hemv : getCol df "emv" = none) (hn : 0 < nRows df) :
    ∃ out, populate_indicators_v2 df = .ok out ∧ nRows out = nRows df ∧
      ∃ emvcol, getCol out "emv" = some emvcol ∧ emvcol.length = nRows df ∧
        emvcol.head? = some none := by
  have hhl : high.length = nRows df := hwf _ (getCol_mem df _ _ hh)
  have hll : low.length = nRows df := hwf _ (getCol_mem df _ _ hl)
  have hvl : volume.length = nRows df := hwf _ (getCol_mem df _ _ hv)
  have hout : populate_indicators_v2 df = .ok (setCol df "emv" (eom high low volume 14)) := by
    simp [populate_indicators_v2, hh, hl, hv]
  have hset : setCol df "emv" (eom high low volume 14)
      = df ++ [("emv", eom high low volume 14)] := setCol_not_mem df _ _ hemv
  have hdfne : df ≠ [] := by
    intro hd
    rw [hd] at hh
    exact absurd hh (by simp [getCol])
  refine ⟨_, hout, ?_, eom high low volume 14, ?_,
    eom_length high low volume 14 (nRows df) hhl hll hvl, ?_⟩
  · rw [hset]
    exact nRows_append df _ hdfne
  · rw [hset]
    exact getCol_append_self df "emv" _ hemv
  · have hhne : high ≠ [] := by
      intro he
      rw [he] at hhl
      rw [← hhl] at hn
      exact absurd hn (by simp)
    have hlne : low ≠ [] := by
      intro he
      rw [he] at hll
      rw [← hll] at hn
      exact absurd hn (by simp)
    have hvne : volume ≠ [] := by
      intro he
      rw [he] at hvl
      rw [← hvl] at hn
      exact absurd hn (by simp)
    obtain ⟨h0, ht, rfl⟩ := List.exists_cons_of_ne_nil hhne
    obtain ⟨l0, lt, rfl⟩ := List.exists_cons_of_ne_nil hlne
    obtain ⟨v0, vt, rfl⟩ := List.exists_cons_of_ne_nil hvne
    exact eom_cons_head h0 l0 v0 ht lt vt 14 (by decide)

/-- Witness for the amended C10 at the two-row candle frame. -/
theorem indicator_stage_drops_no_rows_witness :
    ∃ out, populate_indicators_v2 df10 = .ok out ∧ nRows out = nRows df10 := by
  obtain ⟨out, h1, h2, -⟩ := indicator_stage_drops_no_rows df10
    [some 10, some 11] [some 5, some 6] [some 100, some 200]
    rfl rfl rfl (by unfold WFFrame; decide) rfl (by decide)
  exact ⟨out, h1, h2⟩

/-! ## C2: the RSI division-by-zero substitution -/

/-- Claim C2 is a code bug: on a strictly rising close series every price
delta is a gain, so `avg_loss` is exactly `0` from the first defined
output onward; `avg_loss.replace(0, float('inf'))` then puts the infinity
in the DENOMINATOR of `rs = avg_gain / ...`, giving `rs = 0` and therefore
`RSI = 100 - 100/(1+0) = 0` — not the `RSI = 100` that the claim (and the
standard Wilder definition, and the function's own docstring range
"1~100") prescribes for the `avg_loss = 0` case.  Here: closes `[1, 2, 3]`
with `period = 2`. -/
theorem calculate_rsi_zero_on_pure_uptrend :
    ewmMean ((1 : ℚ) / 2) 2 (lossOf (diff [1, 2, 3])) = [none, some 0, some 0] ∧
    calculate_rsi [1, 2, 3] 2 = [none, some 0, some 0] := by
  constructor <;>
    norm_num [calculate_rsi, diff, gainOf, lossOf, ewmMean, ewmRec, maskFrom,
      replaceZeroWithInf, divByRVal, rsiFromRs]

end TB
